import Mathlib

/-!
Shallow embedding of `src/scraper.py` (NYT Spelling Bee answers scraper).

Modelling conventions:
* Python strings are Lean `String`s; the inputs we reason about are ASCII, where
  `str.upper`, `str.isalpha`, `[A-Z]` and word-character tests agree with the
  Lean `Char` ASCII predicates used below.
* A Python `set` of strings accumulated by a parser is represented canonically
  as its deduplicated, lexicographically sorted element list (`canonSet`).
  The iteration order of `list(some_set)` in CPython is unspecified (it depends
  on the per-process hash seed), so the order in which `scrape` receives the
  candidate word list is modelled by an explicit parameter `sigma`
  (a permutation applied to the canonical listing); likewise the iteration order
  of `set(answers[0])` inside `_find_center_letter` is a parameter `tau`.
* The external collaborators are oracles: `fetch : String -> Option String`
  models `_fetch_with_anti_bot` (returns the body on HTTP 200, `none` on any
  transport failure, exactly as the Python helper catches everything), and
  `bsoup : String -> Except Unit (List String)` models the BeautifulSoup pass
  of `_generic_structured_parser` (the stripped texts of all `li` elements,
  or an exception).  The `try/except` structure around the latter is embedded
  explicitly.
* Python `dict` insertion order is deterministic: the keys of `letter_counts`
  are the letters in order of first occurrence (`firstDedup` of the flattened
  character stream) and each value is the occurrence count.
* `sorted(..., reverse=True)` is a stable descending sort; it is embedded by
  the stable insertion sort `sortDesc`.  Plain `sorted` on strings or
  characters is embedded by Mathlib's `List.insertionSort (· ≤ ·)`, whose
  result agrees with any correct sort of the same multiset.
* Random delays (`_random_sleep`) have no observable effect on the result and
  are dropped; the user-agent rotation only affects the fetch oracle's input.
-/

namespace Bee

/-- Whitespace characters stripped by Python `str.strip()` (ASCII range). -/
def pyWhitespace (c : Char) : Bool :=
  c = ' ' || c = '\t' || c = '\n' || c = '\r' || c.toNat = 11 || c.toNat = 12

/-- Embedding of Python `str.strip()`: drop leading and trailing whitespace. -/
def pyStrip (s : String) : String :=
  String.mk (((s.toList.dropWhile pyWhitespace).reverse.dropWhile pyWhitespace).reverse)

/-- Embedding of Python `str.upper()` (ASCII data). -/
def pyUpper (s : String) : String :=
  String.mk (s.toList.map Char.toUpper)

/-- The fixed blocklist `SpellingBeeScraper.COMMON_BLOCKLIST` (src/scraper.py lines 25-38). -/
def COMMON_BLOCKLIST : List String :=
  ["HTML", "HTTP", "HTTPS", "HEAD", "BODY", "SCRIPT", "STYLE", "META", "JSON", "AJAX",
   "TYPE", "NAME", "CLASS", "HREF", "LINK", "SPAN", "DOCTYPE", "CDATA", "AICP",
   "TODAY", "TODAYS", "SPELLING", "PUZZLE", "ANSWERS", "WORDS", "GAME", "LETTER",
   "LETTERS", "CENTER", "PANGRAM", "GENIUS", "QUEEN", "BEE",
   "SEPTEMBER", "OCTOBER", "NOVEMBER", "DECEMBER", "JANUARY", "FEBRUARY", "MARCH",
   "APRIL", "JUNE", "JULY", "AUGUST", "MONDAY", "TUESDAY",
   "WEDNESDAY", "THURSDAY", "FRIDAY", "SATURDAY", "SUNDAY", "TIMES", "NEWS", "YORK", "SOLUTION",
   "COMMENTS", "REPLY", "EMAIL", "WEBSITE", "SUBSCRIBE", "LOGIN", "LOGOUT", "REGISTER",
   "SEARCH", "POST", "EDIT", "DELETE", "UPDATE", "VIEW", "SHARE",
   "USER", "ADMIN", "FORUM", "BLOG", "ARCHIVE", "SOLVER", "HINT", "PRIME", "FINDER",
   "SBHINTS", "SBANSWERS", "SBARCHIVE", "TECHWISER", "GUIDE",
   "COPYRIGHT", "POLICY", "CONTACT", "ABOUT", "PRIVACY", "TERMS", "SERVICE", "FOLLOW"]

/-- Embedding of `SpellingBeeScraper._is_spelling_bee_word` (lines 131-150).
The `isinstance` check is vacuous in the embedding (inputs are strings).
`w.isalpha()` on the length-checked nonempty string is `all Char.isAlpha`. -/
def is_spelling_bee_word (word : String) : Bool :=
  if word = "" then false
  else if (pyUpper (pyStrip word)).length < 4 ∨ 15 < (pyUpper (pyStrip word)).length then false
  else if ¬ ((pyUpper (pyStrip word)).toList.all Char.isAlpha = true) then false
  else if pyUpper (pyStrip word) ∈ COMMON_BLOCKLIST then false
  else true

/-- First-occurrence deduplication with an accumulator of already seen
elements: the key order of an insertion-ordered Python dict/set. -/
def firstDedupAux {α : Type} [DecidableEq α] (seen : List α) : List α → List α
  | [] => []
  | a :: as =>
    if a ∈ seen then firstDedupAux seen as
    else a :: firstDedupAux (a :: seen) as

/-- Deduplicate a list keeping the first occurrence of each element. -/
def firstDedup {α : Type} [DecidableEq α] (l : List α) : List α :=
  firstDedupAux [] l

/-- Index of the first occurrence of an element in a list. -/
def firstIdx {α : Type} [DecidableEq α] : List α → α → Nat
  | [], _ => 0
  | b :: bs, a => if a = b then 0 else firstIdx bs a + 1

/-- Stable insertion step for a descending sort by a numeric key: the new
element passes every strictly larger key and stops in front of the first
element whose key is not larger, so elements with equal keys keep their
original relative order, exactly like Python's stable `sorted(..., reverse=True)`. -/
def insertDesc {α : Type} (cnt : α → Nat) (a : α) : List α → List α
  | [] => [a]
  | b :: bs => if cnt a < cnt b then b :: insertDesc cnt a bs else a :: b :: bs

/-- Stable descending sort by a numeric key, embedding
`sorted(keys, key=lambda x: counts[x], reverse=True)`. -/
def sortDesc {α : Type} (cnt : α → Nat) : List α → List α
  | [] => []
  | a :: as => insertDesc cnt a (sortDesc cnt as)

/-- Computable lexicographic comparison of character lists by code point,
the order Python uses to compare strings. -/
def listLe : List Char → List Char → Bool
  | [], _ => true
  | _ :: _, [] => false
  | a :: as, b :: bs => if a = b then listLe as bs else decide (a.toNat < b.toNat)

/-- Computable lexicographic comparison of strings (shown below to agree
with the order-theoretic `a ≤ b`). -/
def strLe (a b : String) : Bool :=
  listLe a.toList b.toList

/-- Canonical representation of the Python set accumulated by a parser:
its elements deduplicated and sorted. -/
def canonSet (l : List String) : List String :=
  List.insertionSort (fun a b => strLe a b = true) (firstDedup l)

/-- Case-insensitive literal match at the front of the input (the pattern is
given in lowercase; ASCII case folding). -/
def startsWithCi : List Char → List Char → Bool
  | [], _ => true
  | _ :: _, [] => false
  | p :: ps, c :: cs => p = c.toLower && startsWithCi ps cs

/-- One step of the scan for the regex `<li>([A-Z]\x7b4,\x7d)</li>` with
`re.IGNORECASE`: at the current position, match the literal `<li>`
case-insensitively, then a maximal run of ASCII letters (at least 4), then the
literal `</li>` case-insensitively; the captured group is the letter run. -/
def tryLiMatch (l : List Char) : Option (String × List Char) :=
  if startsWithCi "<li>".toList l then
    let rest1 := l.drop 4
    let letters := rest1.takeWhile Char.isAlpha
    let rest2 := rest1.drop letters.length
    if 4 ≤ letters.length ∧ startsWithCi "</li>".toList rest2 then
      some (String.mk letters, rest2.drop 5)
    else none
  else none

/-- Fuelled scan collecting all non-overlapping matches of the `li` regex.
The fuel decreases by one per step and each step consumes at least one input
character, so fuel equal to the input length plus one is never exhausted. -/
def liScan : Nat → List Char → List String
  | 0, _ => []
  | _ + 1, [] => []
  | fuel + 1, c :: cs =>
    match tryLiMatch (c :: cs) with
    | some (w, rest) => w :: liScan fuel rest
    | none => liScan fuel cs

/-- All captured groups of `re.findall(r'<li>([A-Z]\x7b4,\x7d)</li>', html, re.IGNORECASE)`. -/
def extractLi (html : String) : List String :=
  liScan (html.toList.length + 1) html.toList

/-- Word character for the regex `\b` boundary (`[A-Za-z0-9_]` on ASCII data). -/
def isWordChar (c : Char) : Bool :=
  c.isAlpha || c.isDigit || c = '_'

/-- Fuelled scan for `re.findall(r'\b[A-Z]\x7b4,15\x7d\b', html)`: a match is a
maximal run of uppercase ASCII letters of length 4 to 15 whose neighbouring
characters (when present) are not word characters.  Longer runs, and runs
flanked by a word character, produce no match at any position. -/
def regexScanAux : Nat → Bool → List Char → List String
  | 0, _, _ => []
  | _ + 1, _, [] => []
  | fuel + 1, prevWord, c :: cs =>
    if c.isUpper then
      let run := c :: cs.takeWhile Char.isUpper
      let rest := cs.drop (run.length - 1)
      let flankOk := !prevWord &&
        (match rest with
         | [] => true
         | d :: _ => !isWordChar d)
      let keep := flankOk && decide (4 ≤ run.length) && decide (run.length ≤ 15)
      (if keep then [String.mk run] else []) ++ regexScanAux fuel true rest
    else
      regexScanAux fuel (isWordChar c) cs

/-- All matches of `\b[A-Z]\x7b4,15\x7d\b` over the raw document. -/
def regexScan (html : String) : List String :=
  regexScanAux (html.toList.length + 1) false html.toList

/-- Embedding of `SpellingBeeScraper._generic_structured_parser` (lines 152-176).
The regex pass uppercases each captured group and keeps the words accepted by
the filter; the BeautifulSoup pass is the oracle `bsoup`.  When the oracle
raises, the `except` clause swallows the exception and the function returns
the words accumulated so far (the regex-pass words), exactly as in the source. -/
def generic_structured_parse (bsoup : String → Except Unit (List String))
    (html : String) : List String :=
  let regexWords := ((extractLi html).map pyUpper).filter is_spelling_bee_word
  let allWords :=
    match bsoup html with
    | Except.ok items => regexWords ++ (items.map pyUpper).filter is_spelling_bee_word
    | Except.error _ => regexWords
  canonSet allWords

/-- Embedding of `SpellingBeeScraper._generic_regex_parser` (lines 178-193).
The fixed pattern on a string input cannot raise, so the `try` is vacuous. -/
def generic_regex_parse (html : String) : List String :=
  canonSet ((regexScan html).filter is_spelling_bee_word)

/-- Embedding of `SpellingBeeScraper._validate_result` (lines 195-200):
the dict is always well-formed here, so validity is the truthiness of the
answers list together with the size threshold. -/
def validate_result (answers : List String) : Bool :=
  !answers.isEmpty && decide (15 ≤ answers.length)

/-- Embedding of `SpellingBeeScraper._find_center_letter` (lines 202-215).
`tau answers[0]` is the iteration order of the Python `set(answers[0])` (an
unspecified permutation of the distinct characters of the first word);
the first candidate contained in every word is returned. -/
def find_center_letter (tau : String → List Char) (answers : List String) : Option Char :=
  match answers with
  | [] => none
  | w :: ws =>
    (tau w).find? (fun c => (w :: ws).all (fun v => decide (c ∈ v.toList)))

/-- The character stream scanned by the counting loop of
`_find_all_letters`: every letter of every word in list order. -/
def lettersFlat : List String → List Char
  | [] => []
  | w :: ws => w.toList ++ lettersFlat ws

/-- Embedding of `SpellingBeeScraper._find_all_letters` (lines 217-238).
The keys of the insertion-ordered `letter_counts` dict are the letters in
first-occurrence order with their occurrence counts; `sorted(keys,
key=counts, reverse=True)` is the stable descending sort `sortDesc`; the top
seven are re-sorted ascending and joined. -/
def find_all_letters (answers : List String) : Option String :=
  if answers.length < 10 then none
  else if 7 ≤ (sortDesc (fun c => (lettersFlat answers).count c)
      (firstDedup (lettersFlat answers))).length then
    some (String.mk (List.insertionSort (fun a b => a ≤ b)
      ((sortDesc (fun c => (lettersFlat answers).count c)
        (firstDedup (lettersFlat answers))).take 7)))
  else none

/-- Embedding of `SpellingBeeScraper._find_pangrams` (lines 240-254): empty
unless `letters` has exactly seven characters and `answers` is non-empty;
otherwise the words, in list order, whose distinct-character set has size at
least seven and contains every character of `letters`. -/
def find_pangrams (answers : List String) (letters : String) : List String :=
  if answers.isEmpty || decide (letters.length ≠ 7) then []
  else
    answers.filter (fun w =>
      decide (7 ≤ (firstDedup w.toList).length) &&
      letters.toList.all (fun c => decide (c ∈ w.toList)))

/-- A registry entry: a name and the URL built for the target date. -/
structure Source where
  name : String
  url : String

/-- Left-pad with zeros, embedding Python `str.zfill` on digit strings. -/
def zfill (width : Nat) (s : String) : String :=
  if s.length < width then String.mk (List.replicate (width - s.length) '0') ++ s else s

/-- The lowercase month names of `_build_sources`. -/
def monthsList : List String :=
  ["january", "february", "march", "april", "may", "june",
   "july", "august", "september", "october", "november", "december"]

/-- Embedding of `date.strftime('%Y-%m-%d')` for a valid calendar date. -/
def dateIso (y m d : Nat) : String :=
  zfill 4 (toString y) ++ "-" ++ zfill 2 (toString m) ++ "-" ++ zfill 2 (toString d)

/-- Embedding of `SpellingBeeScraper._build_sources` (lines 61-102). -/
def build_sources (y m d : Nat) : List Source :=
  let monthStr := zfill 2 (toString m)
  let dayStr := zfill 2 (toString d)
  let dayInt := toString d
  let year := toString y
  let monthName := monthsList.getD (m - 1) ""
  let dateFormatted := dateIso y m d
  [⟨"SpellingBeeTimes",
    "https://spellingbeetimes.com/" ++ year ++ "/" ++ monthStr ++ "/" ++ dayStr ++
      "/new-york-times-nyt-spelling-bee-answers-and-solution-for-" ++ monthName ++ "-" ++
      dayInt ++ "-" ++ year ++ "/"⟩,
   ⟨"Techwiser",
    "https://techwiser.com/todays-nyt-spelling-bee-answers-for-" ++ monthName ++ "-" ++
      dayInt ++ "-" ++ year ++ "/"⟩,
   ⟨"SBHints", "https://www.sbhints.com/nyt-spelling-bee-answers-" ++ dateFormatted ++ "/"⟩,
   ⟨"PuzzlePrime", "https://www.puzzleprime.com/nyt-spelling-bee-answers-" ++ dateFormatted ++ "/"⟩,
   ⟨"SBSolver", "https://www.sbsolver.com/answers"⟩,
   ⟨"NYT Official Yesterday", "https://www.nytimes.com/spotlight/spelling-bee-answers"⟩,
   ⟨"Reddit",
    "https://www.reddit.com/r/NYTSpellingBee/search/?q=Official%20" ++ dateFormatted ++
      "&restrict_sr=1&sort=new"⟩]

/-- The final artifact assembled by `scrape` (lines 312-319). -/
structure PuzzleRecord where
  date : String
  letters : String
  centerLetter : String
  wordCount : Nat
  pangrams : List String
  answers : List String
deriving Repr, DecidableEq, Inhabited

/-- The per-source loop of `SpellingBeeScraper.scrape` (lines 269-300): fetch,
try the structured parser then the regex parser, validate, accept the first
valid candidate list or log the failure and continue.  `sigma` is the
unspecified iteration order applied by `list(answers_set)` to each parser's
set.  Nothing inside the modelled `try` block can raise, so the
`SCRIPT ERROR` branch is unreachable in the embedding. -/
def scrapeLoop (fetch : String → Option String) (bsoup : String → Except Unit (List String))
    (sigma : List String → List String) :
    List Source → List String → Option (List String) × List String
  | [], log => (none, log)
  | s :: rest, log =>
    match fetch s.url with
    | none => scrapeLoop fetch bsoup sigma rest (log ++ [s.name ++ ": HTTP FAIL"])
    | some html =>
      let r1 := sigma (generic_structured_parse bsoup html)
      if validate_result r1 then (some r1, log)
      else
        let r2 := sigma (generic_regex_parse html)
        if validate_result r2 then (some r2, log)
        else
          scrapeLoop fetch bsoup sigma rest
            (log ++ [s.name ++ ": PARSE/VALIDATION FAIL (Found " ++ toString r2.length ++ " words)"])

/-- Embedding of `SpellingBeeScraper.scrape` (lines 256-325) for an explicit
target date.  On acceptance the deductive analysis runs on the accepted
candidate list and the record is assembled with sorted answers; on exhaustion
the Python code raises `Exception(error_msg)`, embedded as `Except.error`. -/
def scrape (fetch : String → Option String) (bsoup : String → Except Unit (List String))
    (sigma : List String → List String) (tau : String → List Char)
    (y m d : Nat) : Except String PuzzleRecord :=
  let dateStr := dateIso y m d
  match scrapeLoop fetch bsoup sigma (build_sources y m d) [] with
  | (some answers, _) =>
    let letters := (find_all_letters answers).getD ""
    Except.ok
      { date := dateStr
        letters := letters
        centerLetter := ((find_center_letter tau answers).map (fun c => String.mk [c])).getD ""
        wordCount := answers.length
        pangrams := find_pangrams answers letters
        answers := List.insertionSort (fun a b => strLe a b = true) answers }
  | (none, log) =>
    Except.error ("[FAIL] No valid answers found. Details: " ++ String.intercalate "; " log)

/-- A source fails its attempt: either the fetch fails at the transport
level (then the premise of the implication is never satisfied), or the body
is fetched but both parsers produce candidate lists that fail validation.
This is exactly the per-source `REJECTED` outcome of the loop. -/
def sourceRejected (fetch : String → Option String)
    (bsoup : String → Except Unit (List String)) (sigma : List String → List String)
    (s : Source) : Prop :=
  ∀ html, fetch s.url = some html →
    validate_result (sigma (generic_structured_parse bsoup html)) = false ∧
    validate_result (sigma (generic_regex_parse html)) = false

/-- The diagnostic log entry the loop records for a rejected source:
`HTTP FAIL` on transport failure, otherwise the `PARSE/VALIDATION FAIL`
entry with the regex parser's word count. -/
def sourceFailLog (fetch : String → Option String)
    (sigma : List String → List String) (s : Source) : String :=
  match fetch s.url with
  | none => s.name ++ ": HTTP FAIL"
  | some html =>
    s.name ++ ": PARSE/VALIDATION FAIL (Found " ++
      toString (sigma (generic_regex_parse html)).length ++ " words)"

/-! ### Order bridge: `strLe` agrees with the lexicographic order on `String` -/

theorem charToNat_inj {a b : Char} (h : a.toNat = b.toNat) : a = b := by
  have h2 := congrArg Char.ofNat h
  rwa [Char.ofNat_toNat, Char.ofNat_toNat] at h2

theorem listLe_iff : ∀ (as bs : List Char),
    listLe as bs = true ↔ (List.Lex (· < ·) as bs ∨ as = bs)
  | [], [] => iff_of_true rfl (Or.inr rfl)
  | [], _ :: _ => iff_of_true rfl (Or.inl List.Lex.nil)
  | a :: as, [] => by
    constructor
    · intro h; exact absurd h (by simp [listLe])
    · rintro (h | h)
      · cases h
      · cases h
  | a :: as, b :: bs => by
    by_cases hab : a = b
    · subst hab
      rw [listLe, if_pos rfl, listLe_iff as bs]
      constructor
      · rintro (h | rfl)
        · exact Or.inl (List.Lex.cons h)
        · exact Or.inr rfl
      · rintro (h | h)
        · cases h with
          | cons h2 => exact Or.inl h2
          | rel h2 => exact absurd h2 (lt_irrefl a)
        · cases h; exact Or.inr rfl
    · rw [listLe, if_neg hab]
      simp only [decide_eq_true_eq]
      constructor
      · intro h
        exact Or.inl (List.Lex.rel h)
      · rintro (h | h)
        · cases h with
          | cons h2 => exact absurd rfl hab
          | rel h2 => exact h2
        · cases h; exact absurd rfl hab

theorem strLe_iff_le (a b : String) : strLe a b = true ↔ a ≤ b := by
  rw [strLe, listLe_iff, String.le_iff_toList_le, le_iff_lt_or_eq]
  constructor
  · rintro (h | h)
    · exact Or.inl h
    · exact Or.inr h
  · rintro (h | h)
    · exact Or.inl h
    · exact Or.inr h

theorem strLe_total (a b : String) : strLe a b = true ∨ strLe b a = true := by
  rw [strLe_iff_le, strLe_iff_le]; exact le_total a b

theorem strLe_trans {a b c : String} (h1 : strLe a b = true) (h2 : strLe b c = true) :
    strLe a c = true := by
  rw [strLe_iff_le] at h1 h2 ⊢; exact le_trans h1 h2

instance : IsTotal String (fun a b => strLe a b = true) := ⟨strLe_total⟩

instance : IsTrans String (fun a b => strLe a b = true) := ⟨fun _ _ _ => strLe_trans⟩

instance : IsAntisymm String (fun a b => strLe a b = true) :=
  ⟨fun a b h1 h2 => le_antisymm ((strLe_iff_le a b).mp h1) ((strLe_iff_le b a).mp h2)⟩

/-! ### First-occurrence deduplication -/

theorem mem_firstDedupAux {α : Type} [DecidableEq α] :
    ∀ (seen l : List α) (x : α), x ∈ firstDedupAux seen l ↔ x ∈ l ∧ x ∉ seen
  | _, [], x => by simp [firstDedupAux]
  | seen, a :: as, x => by
    rw [firstDedupAux]
    by_cases ha : a ∈ seen
    · rw [if_pos ha, mem_firstDedupAux seen as x]
      constructor
      · rintro ⟨h1, h2⟩; exact ⟨List.mem_cons_of_mem a h1, h2⟩
      · rintro ⟨h1, h2⟩
        rcases List.mem_cons.mp h1 with rfl | h1
        · exact absurd ha h2
        · exact ⟨h1, h2⟩
    · rw [if_neg ha]
      constructor
      · intro h
        rcases List.mem_cons.mp h with rfl | h
        · exact ⟨List.mem_cons_self _ _, ha⟩
        · obtain ⟨h1, h2⟩ := (mem_firstDedupAux (a :: seen) as x).mp h
          refine ⟨List.mem_cons_of_mem a h1, fun hx => h2 (List.mem_cons_of_mem a hx)⟩
      · rintro ⟨h1, h2⟩
        rcases List.mem_cons.mp h1 with rfl | h1
        · exact List.mem_cons_self _ _
        · by_cases hxa : x = a
          · subst hxa; exact List.mem_cons_self _ _
          · refine List.mem_cons_of_mem _ ((mem_firstDedupAux (a :: seen) as x).mpr ⟨h1, ?_⟩)
            intro hx
            rcases List.mem_cons.mp hx with h | h
            · exact hxa h
            · exact h2 h

theorem mem_firstDedup {α : Type} [DecidableEq α] (l : List α) (x : α) :
    x ∈ firstDedup l ↔ x ∈ l := by
  rw [firstDedup, mem_firstDedupAux]
  simp

theorem nodup_firstDedupAux {α : Type} [DecidableEq α] :
    ∀ (seen l : List α), (firstDedupAux seen l).Nodup
  | _, [] => List.nodup_nil
  | seen, a :: as => by
    rw [firstDedupAux]
    by_cases ha : a ∈ seen
    · rw [if_pos ha]; exact nodup_firstDedupAux seen as
    · rw [if_neg ha]
      refine List.Nodup.cons ?_ (nodup_firstDedupAux (a :: seen) as)
      intro hmem
      exact ((mem_firstDedupAux (a :: seen) as a).mp hmem).2 (List.mem_cons_self _ _)

theorem nodup_firstDedup {α : Type} [DecidableEq α] (l : List α) : (firstDedup l).Nodup :=
  nodup_firstDedupAux [] l

/-! ### Canonical sets -/

theorem mem_canonSet (l : List String) (x : String) : x ∈ canonSet l ↔ x ∈ l := by
  rw [canonSet, (List.perm_insertionSort _ _).mem_iff, mem_firstDedup]

theorem nodup_canonSet (l : List String) : (canonSet l).Nodup :=
  ((List.perm_insertionSort _ _).nodup_iff).mpr (nodup_firstDedup l)

theorem sorted_canonSet (l : List String) :
    List.Sorted (fun a b => strLe a b = true) (canonSet l) :=
  List.sorted_insertionSort _ _

theorem sorted_le_of_sorted_strLe {l : List String}
    (h : List.Sorted (fun a b => strLe a b = true) l) : List.Sorted (fun a b => a ≤ b) l :=
  h.imp (fun hab => (strLe_iff_le _ _).mp hab)

/-! ### Validation -/

theorem validate_result_eq (l : List String) :
    validate_result l = decide (15 ≤ l.length) := by
  cases l with
  | nil => rfl
  | cons a as => rfl

theorem validate_result_perm {l l' : List String} (h : l.Perm l') :
    validate_result l = validate_result l' := by
  rw [validate_result_eq, validate_result_eq, h.length_eq]

theorem validate_result_length {l : List String} (h : validate_result l = true) :
    15 ≤ l.length := by
  rw [validate_result_eq] at h
  exact of_decide_eq_true h

/-! ### The stable descending sort -/

theorem insertDesc_perm {α : Type} (cnt : α → Nat) (a : α) :
    ∀ l : List α, (insertDesc cnt a l).Perm (a :: l)
  | [] => List.Perm.refl _
  | b :: bs => by
    rw [insertDesc]
    by_cases h : cnt a < cnt b
    · rw [if_pos h]
      exact ((insertDesc_perm cnt a bs).cons b).trans (List.Perm.swap a b bs)
    · rw [if_neg h]

theorem sortDesc_perm {α : Type} (cnt : α → Nat) :
    ∀ l : List α, (sortDesc cnt l).Perm l
  | [] => List.Perm.refl _
  | a :: as => (insertDesc_perm cnt a (sortDesc cnt as)).trans ((sortDesc_perm cnt as).cons a)

/-- The strict priority order realised by the stable descending sort:
strictly larger count first, and among equal counts the element with the
smaller index (earlier first occurrence) first. -/
def relDesc {α : Type} (cnt idx : α → Nat) (a b : α) : Prop :=
  cnt b < cnt a ∨ (cnt b = cnt a ∧ idx a < idx b)

theorem insertDesc_pairwise {α : Type} (cnt idx : α → Nat) (a : α) :
    ∀ l : List α, List.Pairwise (relDesc cnt idx) l →
      (∀ x ∈ l, idx a < idx x) →
      List.Pairwise (relDesc cnt idx) (insertDesc cnt a l)
  | [], _, _ => List.pairwise_singleton _ _
  | b :: bs, hl, hidx => by
    rw [insertDesc]
    obtain ⟨hb, hbs⟩ := List.pairwise_cons.mp hl
    by_cases h : cnt a < cnt b
    · rw [if_pos h]
      refine List.pairwise_cons.mpr ⟨?_, ?_⟩
      · intro y hy
        rcases List.mem_cons.mp ((insertDesc_perm cnt a bs).mem_iff.mp hy) with rfl | hy
        · exact Or.inl h
        · exact hb y hy
      · exact insertDesc_pairwise cnt idx a bs hbs
          (fun x hx => hidx x (List.mem_cons_of_mem b hx))
    · rw [if_neg h]
      refine List.pairwise_cons.mpr ⟨?_, hl⟩
      intro y hy
      rcases List.mem_cons.mp hy with rfl | hy
      · rcases Nat.lt_or_ge (cnt y) (cnt a) with h2 | h2
        · exact Or.inl h2
        · exact Or.inr ⟨Nat.le_antisymm (Nat.le_of_not_lt h) h2,
            hidx y (List.mem_cons_self _ _)⟩
      · rcases hb y hy with h2 | ⟨h2, _⟩
        · rcases Nat.lt_or_ge (cnt y) (cnt a) with h3 | h3
          · exact Or.inl h3
          · have : cnt b ≤ cnt a := Nat.le_of_not_lt h
            omega
        · rcases Nat.lt_or_ge (cnt y) (cnt a) with h3 | h3
          · exact Or.inl h3
          · refine Or.inr ⟨?_, hidx y (List.mem_cons_of_mem b hy)⟩
            have : cnt b ≤ cnt a := Nat.le_of_not_lt h
            omega

theorem sortDesc_pairwise {α : Type} (cnt idx : α → Nat) :
    ∀ l : List α, List.Pairwise (fun a b => idx a < idx b) l →
      List.Pairwise (relDesc cnt idx) (sortDesc cnt l)
  | [], _ => List.Pairwise.nil
  | a :: as, h => by
    obtain ⟨ha, has⟩ := List.pairwise_cons.mp h
    exact insertDesc_pairwise cnt idx a (sortDesc cnt as)
      (sortDesc_pairwise cnt idx as has)
      (fun x hx => ha x ((sortDesc_perm cnt as).mem_iff.mp hx))

/-! ### First-occurrence indices -/

theorem firstIdx_cons_self {α : Type} [DecidableEq α] (a : α) (l : List α) :
    firstIdx (a :: l) a = 0 := by
  rw [firstIdx, if_pos rfl]

theorem firstIdx_cons_ne {α : Type} [DecidableEq α] {x a : α} (l : List α) (h : x ≠ a) :
    firstIdx (a :: l) x = firstIdx l x + 1 := by
  rw [firstIdx, if_neg h]

theorem pairwise_firstIdx {α : Type} [DecidableEq α] :
    ∀ l : List α, l.Nodup → List.Pairwise (fun a b => firstIdx l a < firstIdx l b) l
  | [], _ => List.Pairwise.nil
  | a :: as, h => by
    obtain ⟨ha, has⟩ := List.pairwise_cons.mp h
    refine List.pairwise_cons.mpr ⟨?_, ?_⟩
    · intro b hb
      rw [firstIdx_cons_self, firstIdx_cons_ne as (fun hba => ha b hb hba.symm)]
      exact Nat.succ_pos _
    · refine (pairwise_firstIdx as has).imp_of_mem ?_
      intro b c hb hc hbc
      rw [firstIdx_cons_ne as (fun hba => ha b hb hba.symm),
        firstIdx_cons_ne as (fun hca => ha c hc hca.symm)]
      omega

/-! ### Deductive analyzer lemmas -/

theorem string_toList_mk (l : List Char) : (String.mk l).toList = l := rfl

theorem find_all_letters_lt10 {answers : List String} (h : answers.length < 10) :
    find_all_letters answers = none := by
  rw [find_all_letters, if_pos h]

theorem find_all_letters_lt7 {answers : List String}
    (h : (firstDedup (lettersFlat answers)).length < 7) :
    find_all_letters answers = none := by
  rw [find_all_letters]
  by_cases h10 : answers.length < 10
  · rw [if_pos h10]
  · rw [if_neg h10, if_neg]
    rw [(sortDesc_perm _ _).length_eq]
    omega

theorem find_all_letters_pos {answers : List String}
    (h10 : 10 ≤ answers.length)
    (h7 : 7 ≤ (firstDedup (lettersFlat answers)).length) :
    ∃ s, find_all_letters answers = some s ∧
      s.toList.length = 7 ∧ s.toList.Nodup ∧ List.Sorted (fun a b => a ≤ b) s.toList ∧
      (∀ c ∈ s.toList, c ∈ lettersFlat answers) ∧
      (∀ c ∈ s.toList, ∀ d ∈ firstDedup (lettersFlat answers), d ∉ s.toList →
        (lettersFlat answers).count d < (lettersFlat answers).count c ∨
          ((lettersFlat answers).count d = (lettersFlat answers).count c ∧
            firstIdx (firstDedup (lettersFlat answers)) c <
              firstIdx (firstDedup (lettersFlat answers)) d)) := by
  have hkeys : (firstDedup (lettersFlat answers)).Nodup := nodup_firstDedup _
  have hslperm := sortDesc_perm (fun c => (lettersFlat answers).count c)
    (firstDedup (lettersFlat answers))
  have hsl7 : 7 ≤ (sortDesc (fun c => (lettersFlat answers).count c)
      (firstDedup (lettersFlat answers))).length := by
    rw [hslperm.length_eq]; exact h7
  have heq : find_all_letters answers =
      some (String.mk (List.insertionSort (fun a b => a ≤ b)
        ((sortDesc (fun c => (lettersFlat answers).count c)
          (firstDedup (lettersFlat answers))).take 7))) := by
    rw [find_all_letters, if_neg (by omega), if_pos hsl7]
  have hsortperm := List.perm_insertionSort (fun a b : Char => a ≤ b)
    ((sortDesc (fun c => (lettersFlat answers).count c)
      (firstDedup (lettersFlat answers))).take 7)
  have hslnodup : (sortDesc (fun c => (lettersFlat answers).count c)
      (firstDedup (lettersFlat answers))).Nodup := hslperm.nodup_iff.mpr hkeys
  have htakenodup := hslnodup.sublist (List.take_sublist 7 _)
  have hmemtake : ∀ c : Char,
      (c ∈ List.insertionSort (fun a b : Char => a ≤ b)
        ((sortDesc (fun cc => (lettersFlat answers).count cc)
          (firstDedup (lettersFlat answers))).take 7)) ↔
      c ∈ (sortDesc (fun cc => (lettersFlat answers).count cc)
        (firstDedup (lettersFlat answers))).take 7 :=
    fun c => hsortperm.mem_iff
  have hP := sortDesc_pairwise (fun c => (lettersFlat answers).count c)
    (firstIdx (firstDedup (lettersFlat answers)))
    (firstDedup (lettersFlat answers)) (pairwise_firstIdx _ hkeys)
  have hsplit := List.take_append_drop 7 (sortDesc (fun c => (lettersFlat answers).count c)
    (firstDedup (lettersFlat answers)))
  have hPapp := List.pairwise_append.mp (by rw [hsplit]; exact hP)
  refine ⟨_, heq, ?_, ?_, ?_, ?_, ?_⟩
  · rw [string_toList_mk, hsortperm.length_eq, List.length_take]
    omega
  · rw [string_toList_mk]
    exact hsortperm.nodup_iff.mpr htakenodup
  · rw [string_toList_mk]
    exact List.sorted_insertionSort _ _
  · rw [string_toList_mk]
    intro c hc
    have hc2 := (hmemtake c).mp hc
    have hc3 : c ∈ sortDesc (fun cc => (lettersFlat answers).count cc)
        (firstDedup (lettersFlat answers)) := (List.take_sublist 7 _).mem hc2
    exact (mem_firstDedup _ _).mp (hslperm.mem_iff.mp hc3)
  · rw [string_toList_mk]
    intro c hc d hd hdnot
    have hc2 := (hmemtake c).mp hc
    have hd2 : d ∈ sortDesc (fun cc => (lettersFlat answers).count cc)
        (firstDedup (lettersFlat answers)) :=
      hslperm.mem_iff.mpr hd
    have hd3 : d ∈ (sortDesc (fun cc => (lettersFlat answers).count cc)
        (firstDedup (lettersFlat answers))).drop 7 := by
      have := hd2
      rw [← hsplit] at this
      rcases List.mem_append.mp this with h | h
      · exact absurd ((hmemtake d).mpr h) hdnot
      · exact h
    exact hPapp.2.2 c hc2 d hd3

theorem find_all_letters_some {answers : List String} {s : String}
    (h : find_all_letters answers = some s) :
    s.toList.length = 7 ∧ s.toList.Nodup ∧ List.Sorted (fun a b => a ≤ b) s.toList := by
  rw [find_all_letters] at h
  by_cases h10 : answers.length < 10
  · rw [if_pos h10] at h; cases h
  · rw [if_neg h10] at h
    by_cases h7 : 7 ≤ (sortDesc (fun c => (lettersFlat answers).count c)
        (firstDedup (lettersFlat answers))).length
    · rw [if_pos h7] at h
      injection h with h
      subst h
      rw [string_toList_mk]
      refine ⟨?_, ?_, List.sorted_insertionSort _ _⟩
      · rw [(List.perm_insertionSort _ _).length_eq, List.length_take]
        omega
      · refine ((List.perm_insertionSort _ _).nodup_iff).mpr ?_
        exact ((sortDesc_perm _ _).nodup_iff.mpr (nodup_firstDedup _)).sublist
          (List.take_sublist 7 _)
    · rw [if_neg h7] at h; cases h

theorem find_pangrams_sub {answers : List String} {letters : String} :
    ∀ p ∈ find_pangrams answers letters, p ∈ answers := by
  intro p hp
  rw [find_pangrams] at hp
  by_cases h : (answers.isEmpty || decide (letters.length ≠ 7)) = true
  · rw [if_pos h] at hp; cases hp
  · rw [if_neg h] at hp
    exact (List.mem_filter.mp hp).1

theorem find_center_letter_mem {tau : String → List Char} {answers : List String} {c : Char}
    (h : find_center_letter tau answers = some c) :
    ∀ v ∈ answers, c ∈ v.toList := by
  cases answers with
  | nil => cases h
  | cons w ws =>
    rw [find_center_letter] at h
    have hp := List.find?_some h
    intro v hv
    exact of_decide_eq_true (List.all_eq_true.mp hp v hv)

/-! ### Parser lemmas -/

theorem structured_parse_canon (bsoup : String → Except Unit (List String)) (html : String) :
    ∃ l, generic_structured_parse bsoup html = canonSet l ∧
      ∀ w ∈ l, is_spelling_bee_word w = true := by
  unfold generic_structured_parse
  cases hb : bsoup html with
  | error e =>
    refine ⟨((extractLi html).map pyUpper).filter is_spelling_bee_word, ?_,
      fun w hw => (List.mem_filter.mp hw).2⟩
    simp only [hb]
  | ok items =>
    refine ⟨((extractLi html).map pyUpper).filter is_spelling_bee_word ++
      (items.map pyUpper).filter is_spelling_bee_word, ?_, fun w hw => ?_⟩
    · simp only [hb]
    · rcases List.mem_append.mp hw with h | h
      · exact (List.mem_filter.mp h).2
      · exact (List.mem_filter.mp h).2

theorem regex_parse_canon (html : String) :
    ∃ l, generic_regex_parse html = canonSet l ∧
      ∀ w ∈ l, is_spelling_bee_word w = true :=
  ⟨(regexScan html).filter is_spelling_bee_word, rfl,
    fun _ hw => (List.mem_filter.mp hw).2⟩

/-! ### Scrape loop lemmas -/

theorem scrapeLoop_accept {fetch : String → Option String}
    {bsoup : String → Except Unit (List String)} {sigma : List String → List String} :
    ∀ (srcs : List Source) (log : List String) {a lg : List String},
      scrapeLoop fetch bsoup sigma srcs log = (some a, lg) →
      validate_result a = true ∧
        ∃ html, a = sigma (generic_structured_parse bsoup html) ∨
          a = sigma (generic_regex_parse html)
  | [], log, a, lg => by
    intro h
    simp [scrapeLoop] at h
  | s :: rest, log, a, lg => by
    intro h
    simp only [scrapeLoop] at h
    cases hf : fetch s.url with
    | none =>
      rw [hf] at h
      exact scrapeLoop_accept rest _ h
    | some html =>
      rw [hf] at h
      simp only at h
      by_cases h1 : validate_result (sigma (generic_structured_parse bsoup html)) = true
      · rw [if_pos h1] at h
        injection h with ha _
        injection ha with ha
        subst ha
        exact ⟨h1, html, Or.inl rfl⟩
      · rw [if_neg h1] at h
        by_cases h2 : validate_result (sigma (generic_regex_parse html)) = true
        · rw [if_pos h2] at h
          injection h with ha _
          injection ha with ha
          subst ha
          exact ⟨h2, html, Or.inr rfl⟩
        · rw [if_neg h2] at h
          exact scrapeLoop_accept rest _ h

theorem scrapeLoop_allfail {fetch : String → Option String}
    {bsoup : String → Except Unit (List String)} {sigma : List String → List String}
    (hf : ∀ u, fetch u = none) :
    ∀ (srcs : List Source) (log : List String),
      scrapeLoop fetch bsoup sigma srcs log =
        (none, log ++ srcs.map (fun s => s.name ++ ": HTTP FAIL"))
  | [], log => by simp [scrapeLoop]
  | s :: rest, log => by
    simp only [scrapeLoop, hf s.url, List.map_cons]
    rw [scrapeLoop_allfail hf rest (log ++ [s.name ++ ": HTTP FAIL"])]
    simp

theorem scrapeLoop_rejected {fetch : String → Option String}
    {bsoup : String → Except Unit (List String)} {sigma : List String → List String} :
    ∀ (srcs : List Source) (log : List String),
      (∀ s ∈ srcs, sourceRejected fetch bsoup sigma s) →
      scrapeLoop fetch bsoup sigma srcs log =
        (none, log ++ srcs.map (sourceFailLog fetch sigma))
  | [], log, _ => by simp [scrapeLoop]
  | s :: rest, log, h => by
    have hs := h s (List.mem_cons_self s rest)
    have hrest : ∀ t ∈ rest, sourceRejected fetch bsoup sigma t :=
      fun t ht => h t (List.mem_cons_of_mem s ht)
    cases hf : fetch s.url with
    | none =>
      simp only [scrapeLoop, hf, List.map_cons]
      rw [scrapeLoop_rejected rest _ hrest]
      simp [sourceFailLog, hf]
    | some html =>
      obtain ⟨hv1, hv2⟩ := hs html hf
      simp only [scrapeLoop, hf]
      rw [if_neg (by rw [hv1]; exact Bool.false_ne_true),
        if_neg (by rw [hv2]; exact Bool.false_ne_true)]
      rw [scrapeLoop_rejected rest _ hrest]
      simp [sourceFailLog, hf]

theorem scrapeLoop_par {fetch : String → Option String}
    {bsoup : String → Except Unit (List String)} {s1 s2 : List String → List String}
    (h1 : ∀ l, (s1 l).Perm l) (h2 : ∀ l, (s2 l).Perm l) :
    ∀ (srcs : List Source) (log : List String),
      (scrapeLoop fetch bsoup s1 srcs log).2 = (scrapeLoop fetch bsoup s2 srcs log).2 ∧
      (((scrapeLoop fetch bsoup s1 srcs log).1 = none ∧
        (scrapeLoop fetch bsoup s2 srcs log).1 = none) ∨
       (∃ a1 a2, (scrapeLoop fetch bsoup s1 srcs log).1 = some a1 ∧
         (scrapeLoop fetch bsoup s2 srcs log).1 = some a2 ∧ a1.Perm a2))
  | [], log => by simp [scrapeLoop]
  | s :: rest, log => by
    cases hf : fetch s.url with
    | none =>
      simp only [scrapeLoop, hf]
      exact scrapeLoop_par h1 h2 rest _
    | some html =>
      have hvP : validate_result (s1 (generic_structured_parse bsoup html)) =
          validate_result (s2 (generic_structured_parse bsoup html)) :=
        validate_result_perm ((h1 _).trans (h2 _).symm)
      have hvQ : validate_result (s1 (generic_regex_parse html)) =
          validate_result (s2 (generic_regex_parse html)) :=
        validate_result_perm ((h1 _).trans (h2 _).symm)
      simp only [scrapeLoop, hf]
      by_cases hp : validate_result (s1 (generic_structured_parse bsoup html)) = true
      · have hp2 : validate_result (s2 (generic_structured_parse bsoup html)) = true :=
          hvP.symm.trans hp
        rw [if_pos hp, if_pos hp2]
        exact ⟨rfl, Or.inr ⟨_, _, rfl, rfl, (h1 _).trans (h2 _).symm⟩⟩
      · have hp2 : ¬ validate_result (s2 (generic_structured_parse bsoup html)) = true :=
          fun h => hp (hvP.trans h)
        rw [if_neg hp, if_neg hp2]
        by_cases hq : validate_result (s1 (generic_regex_parse html)) = true
        · have hq2 : validate_result (s2 (generic_regex_parse html)) = true :=
            hvQ.symm.trans hq
          rw [if_pos hq, if_pos hq2]
          exact ⟨rfl, Or.inr ⟨_, _, rfl, rfl, (h1 _).trans (h2 _).symm⟩⟩
        · have hq2 : ¬ validate_result (s2 (generic_regex_parse html)) = true :=
            fun h => hq (hvQ.trans h)
          rw [if_neg hq, if_neg hq2]
          rw [((h1 (generic_regex_parse html)).trans
            (h2 (generic_regex_parse html)).symm).length_eq]
          exact scrapeLoop_par h1 h2 rest _

theorem scrape_ok {fetch : String → Option String}
    {bsoup : String → Except Unit (List String)} {sigma : List String → List String}
    {tau : String → List Char} {y m d : Nat} {r : PuzzleRecord}
    (h : scrape fetch bsoup sigma tau y m d = Except.ok r) :
    ∃ a lg, scrapeLoop fetch bsoup sigma (build_sources y m d) [] = (some a, lg) ∧
      r = { date := dateIso y m d
            letters := (find_all_letters a).getD ""
            centerLetter := ((find_center_letter tau a).map (fun c => String.mk [c])).getD ""
            wordCount := a.length
            pangrams := find_pangrams a ((find_all_letters a).getD "")
            answers := List.insertionSort (fun x1 x2 => strLe x1 x2 = true) a } := by
  rw [scrape] at h
  cases hsl : scrapeLoop fetch bsoup sigma (build_sources y m d) [] with
  | mk o lg =>
    rw [hsl] at h
    cases o with
    | none => exact absurd h (by simp)
    | some a =>
      simp only at h
      injection h with h
      exact ⟨a, lg, rfl, h.symm⟩

/-! ### Shared concrete example data

`wordsA` is a set of 15 valid words over the seven letters B,C,D,E,F,G,H in
which every word contains B, no other letter is universal, and exactly two
words are pangrams; `htmlA` presents them as `li` items.  `tau0` and `bs0`
are concrete instances of the oracle parameters: first-occurrence order for
the set iteration, and a BeautifulSoup pass that finds no items. -/

def tau0 : String → List Char := fun w => firstDedup w.toList

def bs0 : String → Except Unit (List String) := fun _ => Except.ok []

def htmlA : String :=
  "<li>BBCDEFGH</li><li>BCDEFGH</li><li>BCDE</li><li>BCDF</li><li>BCDG</li>" ++
  "<li>BCDH</li><li>BCEF</li><li>BCEG</li><li>BCEH</li><li>BCFG</li><li>BCFH</li>" ++
  "<li>BCGH</li><li>BDEF</li><li>BDEG</li><li>BDEH</li>"

def fetchA : String → Option String := fun _ => some htmlA

/-- The record produced by the successful run on `htmlA` with the identity
set-listing order. -/
def recA : PuzzleRecord :=
  match scrape fetchA bs0 id tau0 2026 1 2 with
  | Except.ok r => r
  | Except.error _ => default

/-! ### Claims -/

/-- Claim C8: for every non-empty word list, `_find_center_letter` returns a
letter of the first word that is contained in every word of the list whenever
such a letter exists, and returns the empty sentinel when no letter is
contained in every word.  `tau` ranges over the possible iteration orders of
the Python set of the first word's characters. -/
theorem claim_C8 (tau : String → List Char) (w : String) (ws : List String)
    (htau : (tau w).Perm (firstDedup w.toList)) :
    ((∃ c, c ∈ w.toList ∧ ∀ v ∈ w :: ws, c ∈ v.toList) →
      ∃ c, find_center_letter tau (w :: ws) = some c ∧ c ∈ w.toList ∧
        ∀ v ∈ w :: ws, c ∈ v.toList) ∧
    ((¬ ∃ c : Char, ∀ v ∈ w :: ws, c ∈ v.toList) →
      find_center_letter tau (w :: ws) = none) := by
  constructor
  · rintro ⟨c, hcw, hcall⟩
    cases hfind : find_center_letter tau (w :: ws) with
    | none =>
      rw [find_center_letter, List.find?_eq_none] at hfind
      have hc : c ∈ tau w := htau.mem_iff.mpr ((mem_firstDedup _ _).mpr hcw)
      exact absurd (List.all_eq_true.mpr fun v hv => decide_eq_true (hcall v hv))
        (hfind c hc)
    | some c2 =>
      have hfind2 := hfind
      rw [find_center_letter] at hfind
      have hp := List.find?_some hfind
      have hmem := List.mem_of_find?_eq_some hfind
      have hc2w : c2 ∈ w.toList := (mem_firstDedup _ _).mp (htau.mem_iff.mp hmem)
      exact ⟨c2, rfl, hc2w,
        fun v hv => of_decide_eq_true (List.all_eq_true.mp hp v hv)⟩
  · intro hnone
    rw [find_center_letter, List.find?_eq_none]
    intro c _ hp
    exact hnone ⟨c, fun v hv => of_decide_eq_true (List.all_eq_true.mp hp v hv)⟩

/-- Witness for C8: on a concrete pair of words in which every word contains
Q and no other letter is universal, the function returns a universal letter
of the first word. -/
theorem claim_C8_witness :
    ∃ c, find_center_letter (fun w => firstDedup w.toList) ("QABC" :: ["QDEF"]) = some c ∧
      c ∈ "QABC".toList ∧ ∀ v ∈ "QABC" :: ["QDEF"], c ∈ v.toList :=
  (claim_C8 (fun w => firstDedup w.toList) "QABC" ["QDEF"] (List.Perm.refl _)).1
    ⟨'Q', by decide, by decide⟩

/-- Claim C9: `_find_pangrams` returns the empty list whenever `letters` does
not have exactly seven characters, and otherwise includes a word of the
answer list exactly when its set of distinct characters has size at least
seven and contains every character of `letters` (superset, not equality). -/
theorem claim_C9 (answers : List String) (letters : String) :
    (letters.length ≠ 7 → find_pangrams answers letters = []) ∧
    (letters.length = 7 → ∀ w, w ∈ find_pangrams answers letters ↔
      (w ∈ answers ∧ 7 ≤ (firstDedup w.toList).length ∧
        ∀ c ∈ letters.toList, c ∈ w.toList)) := by
  constructor
  · intro h
    have hcond : (answers.isEmpty || decide (letters.length ≠ 7)) = true := by
      rw [Bool.or_eq_true]
      exact Or.inr (decide_eq_true h)
    rw [find_pangrams, if_pos hcond]
  · intro h7 w
    have hd : decide (letters.length ≠ 7) = false := by simp [h7]
    cases he : answers.isEmpty with
    | true =>
      have ha : answers = [] := by
        cases answers with
        | nil => rfl
        | cons x xs => simp [List.isEmpty] at he
      subst ha
      rw [find_pangrams]
      simp
    | false =>
      rw [find_pangrams, if_neg (by rw [he, hd]; simp)]
      rw [List.mem_filter]
      constructor
      · rintro ⟨h1, h2⟩
        rw [Bool.and_eq_true] at h2
        exact ⟨h1, of_decide_eq_true h2.1,
          fun c hc => of_decide_eq_true (List.all_eq_true.mp h2.2 c hc)⟩
      · rintro ⟨h1, h2, h3⟩
        refine ⟨h1, ?_⟩
        rw [Bool.and_eq_true]
        exact ⟨decide_eq_true h2, List.all_eq_true.mpr fun c hc => decide_eq_true (h3 c hc)⟩

/-- Witness for C9: a concrete call with a three-letter `letters` argument
returns the empty list. -/
theorem claim_C9_witness : find_pangrams ["BCDEFG"] "ABC" = [] :=
  (claim_C9 ["BCDEFG"] "ABC").1 (by decide)

/-- Claim C10: whenever `scrape` returns a PuzzleRecord (some source was
accepted), its `wordCount` is at least 15 — the Validator's threshold — and
its `answers` list is non-empty. -/
theorem claim_C10 (fetch : String → Option String)
    (bsoup : String → Except Unit (List String)) (sigma : List String → List String)
    (tau : String → List Char) (y m d : Nat) (r : PuzzleRecord)
    (h : scrape fetch bsoup sigma tau y m d = Except.ok r) :
    15 ≤ r.wordCount ∧ r.answers ≠ [] := by
  obtain ⟨a, lg, hloop, hr⟩ := scrape_ok h
  obtain ⟨hval, -⟩ := scrapeLoop_accept _ _ hloop
  have hlen := validate_result_length hval
  subst hr
  refine ⟨hlen, ?_⟩
  show List.insertionSort (fun x1 x2 => strLe x1 x2 = true) a ≠ []
  intro hnil
  have hl := (List.perm_insertionSort (fun x1 x2 => strLe x1 x2 = true) a).length_eq
  rw [hnil] at hl
  simp only [List.length_nil] at hl
  omega

set_option maxRecDepth 100000 in
/-- Witness for C10: the concrete successful run on `htmlA` satisfies the
threshold invariants. -/
theorem claim_C10_witness : 15 ≤ recA.wordCount ∧ recA.answers ≠ [] :=
  claim_C10 fetchA bs0 id tau0 2026 1 2 recA rfl

/-- Claim C6 counterexample: the token consisting of ABCD with surrounding
spaces contains characters that are not Latin letters, yet the Word Filter
accepts it, because `word.strip()` removes the whitespace before any check. -/
theorem claim_C6_counterexample :
    is_spelling_bee_word " ABCD " = true ∧ (" ABCD ".toList.all Char.isAlpha) = false := by
  decide

/-- Claim C6 amended: the Word Filter accepts a token exactly when the token
is non-empty and its whitespace-stripped, uppercased form has length in
[4, 15], consists only of Latin letters, and is not in the blocklist; in
particular non-letter characters are tolerated as leading or trailing
whitespace but rejected anywhere else. -/
theorem claim_C6_amended (w : String) :
    is_spelling_bee_word w = true ↔
      (w ≠ "" ∧ 4 ≤ (pyUpper (pyStrip w)).length ∧ (pyUpper (pyStrip w)).length ≤ 15 ∧
        (pyUpper (pyStrip w)).toList.all Char.isAlpha = true ∧
        pyUpper (pyStrip w) ∉ COMMON_BLOCKLIST) := by
  constructor
  · intro h
    rw [is_spelling_bee_word] at h
    by_cases h0 : w = ""
    · rw [if_pos h0] at h; exact Bool.noConfusion h
    · rw [if_neg h0] at h
      by_cases h1 : (pyUpper (pyStrip w)).length < 4 ∨ 15 < (pyUpper (pyStrip w)).length
      · rw [if_pos h1] at h; exact Bool.noConfusion h
      · rw [if_neg h1] at h
        by_cases h2 : ¬ ((pyUpper (pyStrip w)).toList.all Char.isAlpha = true)
        · rw [if_pos h2] at h; exact Bool.noConfusion h
        · rw [if_neg h2] at h
          by_cases h3 : pyUpper (pyStrip w) ∈ COMMON_BLOCKLIST
          · rw [if_pos h3] at h; exact Bool.noConfusion h
          · push_neg at h1
            exact ⟨h0, by omega, by omega, not_not.mp h2, h3⟩
  · rintro ⟨h0, h1, h2, h3, h4⟩
    rw [is_spelling_bee_word, if_neg h0, if_neg (by omega), if_neg (not_not.mpr h3),
      if_neg h4]

/-- Witness for C6: the filter accepts a concrete well-formed word. -/
theorem claim_C6_witness : is_spelling_bee_word "BUZZ" = true :=
  (claim_C6_amended "BUZZ").mpr ⟨by decide, by decide, by decide, by decide, by decide⟩

/-- Claim C7 counterexample: on an input whose BeautifulSoup pass raises, the
structured parser still returns the non-empty word list accumulated by the
regex pass before the failure, so a parsing failure does not produce an empty
Candidate Result. -/
theorem claim_C7_counterexample :
    generic_structured_parse (fun _ => Except.error ()) "<li>ABCD</li>" = ["ABCD"] ∧
      (["ABCD"] : List String) ≠ [] :=
  ⟨by decide, by simp⟩

/-- Claim C7 amended: no exception propagates out of a parser invocation;
when the BeautifulSoup pass raises, the structured parser returns exactly the
words the regex pass had already accumulated — the same result as if the pass
had found no items — and the result is empty only when the failure precedes
any extraction. -/
theorem claim_C7_amended (bsoup : String → Except Unit (List String)) (html : String)
    (e : Unit) (hb : bsoup html = Except.error e) :
    generic_structured_parse bsoup html =
      generic_structured_parse (fun _ => Except.ok []) html ∧
    (extractLi html = [] → generic_structured_parse bsoup html = []) := by
  have h1 : generic_structured_parse bsoup html =
      canonSet (((extractLi html).map pyUpper).filter is_spelling_bee_word) := by
    unfold generic_structured_parse
    simp only [hb]
  have h2 : generic_structured_parse (fun _ => Except.ok ([] : List String)) html =
      canonSet (((extractLi html).map pyUpper).filter is_spelling_bee_word) := by
    unfold generic_structured_parse
    simp
  constructor
  · rw [h1, h2]
  · intro he
    rw [h1, he]
    rfl

/-- Witness for C7: the recovery equation at a concrete failing oracle. -/
theorem claim_C7_witness :
    generic_structured_parse (fun _ => Except.error ()) "<li>QXYZ</li>" =
      generic_structured_parse (fun _ => Except.ok []) "<li>QXYZ</li>" ∧
    (extractLi "<li>QXYZ</li>" = [] →
      generic_structured_parse (fun _ => Except.error ()) "<li>QXYZ</li>" = []) :=
  claim_C7_amended (fun _ => Except.error ()) "<li>QXYZ</li>" () rfl

set_option maxRecDepth 100000 in
/-- Claim C1 counterexample: a run in which every source fails does not
terminate normally with an empty PuzzleRecord — `scrape` raises (modelled as
`Except.error`) carrying the diagnostic log, so no record is returned. -/
theorem claim_C1_counterexample :
    scrape (fun _ => none) bs0 id tau0 2026 1 2 =
      Except.error ("[FAIL] No valid answers found. Details: SpellingBeeTimes: HTTP FAIL; " ++
        "Techwiser: HTTP FAIL; SBHints: HTTP FAIL; PuzzlePrime: HTTP FAIL; SBSolver: HTTP FAIL; " ++
        "NYT Official Yesterday: HTTP FAIL; Reddit: HTTP FAIL") ∧
    (scrape (fun _ => none) bs0 id tau0 2026 1 2).toOption = none :=
  ⟨rfl, rfl⟩

/-- Claim C1 amended: when every source in the registry fails — by transport
failure, or by fetching a body whose parses both fail validation — the
resolver raises an exception (modelled as `Except.error`) whose message is
the aggregated per-source diagnostic log; it does not return a
PuzzleRecord. -/
theorem claim_C1_amended (fetch : String → Option String)
    (bsoup : String → Except Unit (List String)) (sigma : List String → List String)
    (tau : String → List Char) (y m d : Nat)
    (hfail : ∀ s ∈ build_sources y m d, sourceRejected fetch bsoup sigma s) :
    scrape fetch bsoup sigma tau y m d =
      Except.error ("[FAIL] No valid answers found. Details: " ++
        String.intercalate "; "
          ((build_sources y m d).map (sourceFailLog fetch sigma))) := by
  rw [scrape, scrapeLoop_rejected _ _ hfail]
  simp

/-- A fetch oracle under which every source responds with a page holding a
single valid word, so every parse succeeds but fails validation — the
all-sources-fail-validation scenario. -/
def fetchC : String → Option String := fun _ => some "<li>ABCD</li>"

/-- Witness for C1: a concrete run in which every source fetches
successfully and fails validation raises with the per-source
PARSE/VALIDATION log entries. -/
theorem claim_C1_witness :
    scrape fetchC bs0 id tau0 2025 12 31 =
      Except.error ("[FAIL] No valid answers found. Details: " ++
        String.intercalate "; "
          ((build_sources 2025 12 31).map (sourceFailLog fetchC id))) :=
  claim_C1_amended fetchC bs0 id tau0 2025 12 31
    (fun s _ html hh => by
      injection hh with hh
      subst hh
      exact ⟨by decide, by decide⟩)

/-- Insertion step for a sort by an explicit Boolean comparison. -/
def insertBy {α : Type} (le : α → α → Bool) (a : α) : List α → List α
  | [] => [a]
  | b :: bs => if le a b then a :: b :: bs else b :: insertBy le a bs

/-- Insertion sort by an explicit Boolean comparison. -/
def sortBy {α : Type} (le : α → α → Bool) : List α → List α
  | [] => []
  | a :: as => insertBy le a (sortBy le as)

/-- The letter-ranking algorithm as the spec words it, for comparison with
the implementation: rank by descending frequency, break frequency ties by
ascending alphabetical order, take the top seven, re-sort ascending. -/
def find_all_letters_spec (answers : List String) : Option String :=
  if answers.length < 10 then none
  else if 7 ≤ (firstDedup (lettersFlat answers)).length then
    some (String.mk (List.insertionSort (fun a b => a ≤ b)
      ((sortBy (fun a b =>
          decide ((lettersFlat answers).count b < (lettersFlat answers).count a ∨
            ((lettersFlat answers).count a = (lettersFlat answers).count b ∧ a ≤ b)))
        (firstDedup (lettersFlat answers))).take 7)))
  else none

/-- Ten words with eight distinct letters in which A and B are tied with one
occurrence each and B first occurs before A; the cut for the seventh slot
falls on that tie. -/
def wordsT : List String :=
  ["BCDEFGH", "ACDEFGH", "CDEF", "CDEG", "CDEH", "CDFG", "CDFH", "CDGH", "CEFG", "CEFH"]

/-- Claim C2 counterexample: on `wordsT` the implementation keeps B (the
letter whose first occurrence comes earlier) while the spec's alphabetical
tie-break would keep A: Python's stable `sorted(..., reverse=True)` breaks
frequency ties by dict insertion order, not alphabetically. -/
theorem claim_C2_counterexample :
    find_all_letters wordsT = some "BCDEFGH" ∧
    find_all_letters_spec wordsT = some "ACDEFGH" ∧
    ("BCDEFGH" : String) ≠ "ACDEFGH" := by
  refine ⟨by decide, by decide, by decide⟩

/-- Claim C2 amended: `_find_all_letters` returns the empty sentinel for
fewer than 10 words or fewer than 7 distinct letters; otherwise it returns
seven distinct letters of the input re-sorted ascending, chosen so that every
excluded letter either has a strictly smaller frequency than every chosen
letter or ties in frequency with a chosen letter whose first occurrence in
the word list comes earlier — frequency ties are broken by first-occurrence
order, not alphabetically. -/
theorem claim_C2_amended (answers : List String) :
    (answers.length < 10 → find_all_letters answers = none) ∧
    ((firstDedup (lettersFlat answers)).length < 7 → find_all_letters answers = none) ∧
    (10 ≤ answers.length → 7 ≤ (firstDedup (lettersFlat answers)).length →
      ∃ s, find_all_letters answers = some s ∧
        s.toList.length = 7 ∧ s.toList.Nodup ∧ List.Sorted (fun a b => a ≤ b) s.toList ∧
        (∀ c ∈ s.toList, c ∈ lettersFlat answers) ∧
        (∀ c ∈ s.toList, ∀ d ∈ firstDedup (lettersFlat answers), d ∉ s.toList →
          (lettersFlat answers).count d < (lettersFlat answers).count c ∨
            ((lettersFlat answers).count d = (lettersFlat answers).count c ∧
              firstIdx (firstDedup (lettersFlat answers)) c <
                firstIdx (firstDedup (lettersFlat answers)) d))) :=
  ⟨find_all_letters_lt10, find_all_letters_lt7, fun h10 h7 => find_all_letters_pos h10 h7⟩

/-- The record produced by the successful run on `htmlA` with reversed
set-listing order (`List.reverse` is a possible iteration order of the
hash-seeded Python set). -/
def recAr : PuzzleRecord :=
  match scrape fetchA bs0 List.reverse tau0 2026 1 2 with
  | Except.ok r => r
  | Except.error _ => default

set_option maxRecDepth 400000 in
/-- Claim C3 counterexample: a successful run whose candidate list arrives in
reversed order produces the pangrams in that order, which is not
lexicographically sorted — the code never sorts `pangrams`. -/
theorem claim_C3_counterexample :
    (scrape fetchA bs0 List.reverse tau0 2026 1 2).toOption.map (fun r => r.pangrams) =
      some ["BCDEFGH", "BBCDEFGH"] ∧
    ¬ (("BCDEFGH" : String) ≤ "BBCDEFGH") := by
  refine ⟨by decide, fun h => ?_⟩
  exact absurd ((strLe_iff_le "BCDEFGH" "BBCDEFGH").mpr h) (by decide)

/-- Claim C3 amended: in every record returned by a successful run the
answers are deduplicated and lexicographically sorted and every pangram is
one of the answers, but the pangrams are listed in the order of the accepted
candidate list (the unspecified set-iteration order), not sorted. -/
theorem claim_C3_amended (fetch : String → Option String)
    (bsoup : String → Except Unit (List String)) (sigma : List String → List String)
    (tau : String → List Char) (y m d : Nat) (r : PuzzleRecord)
    (hs : ∀ l, (sigma l).Perm l)
    (h : scrape fetch bsoup sigma tau y m d = Except.ok r) :
    List.Sorted (fun a b => a ≤ b) r.answers ∧ r.answers.Nodup ∧
      ∀ p ∈ r.pangrams, p ∈ r.answers := by
  obtain ⟨a, lg, hloop, hr⟩ := scrape_ok h
  obtain ⟨hval, html, hshape⟩ := scrapeLoop_accept _ _ hloop
  have hacanon : ∃ X, a = sigma (canonSet X) := by
    rcases hshape with h1 | h1
    · obtain ⟨l, hl, -⟩ := structured_parse_canon bsoup html
      exact ⟨l, by rw [h1, hl]⟩
    · obtain ⟨l, hl, -⟩ := regex_parse_canon html
      exact ⟨l, by rw [h1, hl]⟩
  obtain ⟨X, hX⟩ := hacanon
  have hanodup : a.Nodup := by
    rw [hX]
    exact ((hs _).nodup_iff).mpr (nodup_canonSet X)
  subst hr
  refine ⟨?_, ?_, ?_⟩
  · exact sorted_le_of_sorted_strLe (List.sorted_insertionSort _ _)
  · exact ((List.perm_insertionSort _ _).nodup_iff).mpr hanodup
  · intro p hp
    exact ((List.perm_insertionSort (fun x1 x2 => strLe x1 x2 = true) a).mem_iff).mpr
      (find_pangrams_sub p hp)

set_option maxRecDepth 100000 in
/-- Witness for C3: the amended statement at the concrete run on `htmlA`. -/
theorem claim_C3_witness :
    List.Sorted (fun a b => a ≤ b) recA.answers ∧ recA.answers.Nodup ∧
      ∀ p ∈ recA.pangrams, p ∈ recA.answers :=
  claim_C3_amended fetchA bs0 id tau0 2026 1 2 recA (fun l => List.Perm.refl l) rfl

set_option maxRecDepth 400000 in
/-- Claim C4 counterexample: two runs on byte-identical HTML (the same fetch
and BeautifulSoup oracles) whose processes list the parsed set in different
orders — both orders are permutations, as `list(set)` may produce under
CPython's per-process hash seed — yield different PuzzleRecords: the pangram
arrays come out in different orders. -/
theorem claim_C4_counterexample :
    scrape fetchA bs0 id tau0 2026 1 2 ≠ scrape fetchA bs0 List.reverse tau0 2026 1 2 := by
  intro h
  have h2 := congrArg (fun e => (Except.toOption e).map (fun r => r.pangrams)) h
  simp only at h2
  exact absurd h2 (by decide)

/-- Claim C4 amended: runs on byte-identical HTML agree on the date, the
word count and the sorted answers array regardless of the set-iteration
orders of the two processes; the letters, centerLetter and pangrams fields
additionally depend on those orders, so full record equality is only
guaranteed when the orders agree. -/
theorem claim_C4_amended (fetch : String → Option String)
    (bsoup : String → Except Unit (List String)) (s1 s2 : List String → List String)
    (t1 t2 : String → List Char) (y m d : Nat) (r1 r2 : PuzzleRecord)
    (h1 : ∀ l, (s1 l).Perm l) (h2 : ∀ l, (s2 l).Perm l)
    (e1 : scrape fetch bsoup s1 t1 y m d = Except.ok r1)
    (e2 : scrape fetch bsoup s2 t2 y m d = Except.ok r2) :
    r1.date = r2.date ∧ r1.wordCount = r2.wordCount ∧ r1.answers = r2.answers := by
  obtain ⟨a1, lg1, hl1, hr1⟩ := scrape_ok e1
  obtain ⟨a2, lg2, hl2, hr2⟩ := scrape_ok e2
  have hpar := @scrapeLoop_par fetch bsoup s1 s2 h1 h2 (build_sources y m d) []
  have hperm : a1.Perm a2 := by
    rcases hpar.2 with ⟨hn1, -⟩ | ⟨b1, b2, hb1, hb2, hp⟩
    · rw [hl1] at hn1
      cases hn1
    · rw [hl1] at hb1
      rw [hl2] at hb2
      injection hb1 with hq1
      injection hb2 with hq2
      rw [hq1, hq2]
      exact hp
  subst hr1
  subst hr2
  refine ⟨rfl, hperm.length_eq, ?_⟩
  exact List.eq_of_perm_of_sorted
    ((List.perm_insertionSort (fun x1 x2 => strLe x1 x2 = true) a1).trans
      (hperm.trans (List.perm_insertionSort (fun x1 x2 => strLe x1 x2 = true) a2).symm))
    (List.sorted_insertionSort _ _) (List.sorted_insertionSort _ _)

set_option maxRecDepth 200000 in
/-- Witness for C4: the amended statement at the two concrete runs on
`htmlA` with identity and reversed set-listing orders. -/
theorem claim_C4_witness :
    recA.date = recAr.date ∧ recA.wordCount = recAr.wordCount ∧
      recA.answers = recAr.answers :=
  claim_C4_amended fetchA bs0 id List.reverse tau0 tau0 2026 1 2 recA recAr
    (fun l => List.Perm.refl l) (fun l => List.reverse_perm l) rfl rfl

/-- Fifteen valid 13-letter words over A,B,C,D,E,F,G,H in which A occurs in
every word exactly once while each of B..H occurs twice per word but is
missing from at least two words, so A is the unique universal letter yet the
seven most frequent letters are B..H. -/
def htmlB : String :=
  "<li>ACCDDEEFFGGHH</li><li>ACCDDEEFFHHGG</li><li>ACCDDEEGGFFHH</li>" ++
  "<li>ABBDDEEFFGGHH</li><li>ABBDDEEFFHHGG</li>" ++
  "<li>ABBCCEEFFGGHH</li><li>ABBCCEEFFHHGG</li>" ++
  "<li>ABBCCDDFFGGHH</li><li>ABBCCDDFFHHGG</li>" ++
  "<li>ABBCCDDEEGGHH</li><li>ABBCCDDEEHHGG</li>" ++
  "<li>ABBCCDDEEFFHH</li><li>ABBCCDDEEHHFF</li>" ++
  "<li>ABBCCDDEEFFGG</li><li>ABBCCDDEEGGFF</li>"

def fetchB : String → Option String := fun _ => some htmlB

/-- The record produced by the successful run on `htmlB`. -/
def recB : PuzzleRecord :=
  match scrape fetchB bs0 id tau0 2026 1 2 with
  | Except.ok r => r
  | Except.error _ => default

set_option maxRecDepth 400000 in
/-- Claim C5 counterexample: a successful run on `htmlB` returns a record
whose centerLetter is A and whose letters string is BCDEFGH, so the
centerLetter is not one of the characters of `letters` although both are
non-empty — the conjunction of data-model invariants fails.  The violation
is independent of the set-iteration orders: A is the only universal letter
and the letter frequencies are order-independent. -/
theorem claim_C5_counterexample :
    (scrape fetchB bs0 id tau0 2026 1 2).toOption.map
        (fun r => (r.centerLetter, r.letters)) = some ("A", "BCDEFGH") ∧
    ¬ ('A' ∈ "BCDEFGH".toList) := by
  exact ⟨by decide, by decide⟩

/-- Claim C5 amended: every record of a successful run satisfies
`wordCount = |answers|`, `pangrams ⊆ answers`, a non-empty `letters` has
exactly seven distinct characters in ascending order, a non-empty
`centerLetter` is a single character contained in every answer (but not
necessarily a character of `letters`), and every answer passes the Word
Filter. -/
theorem claim_C5_amended (fetch : String → Option String)
    (bsoup : String → Except Unit (List String)) (sigma : List String → List String)
    (tau : String → List Char) (y m d : Nat) (r : PuzzleRecord)
    (hs : ∀ l, (sigma l).Perm l)
    (h : scrape fetch bsoup sigma tau y m d = Except.ok r) :
    r.wordCount = r.answers.length ∧
    (∀ p ∈ r.pangrams, p ∈ r.answers) ∧
    (r.letters ≠ "" → r.letters.toList.length = 7 ∧ r.letters.toList.Nodup ∧
      List.Sorted (fun a b => a ≤ b) r.letters.toList) ∧
    (r.centerLetter ≠ "" → ∃ c, r.centerLetter = String.mk [c] ∧
      ∀ w ∈ r.answers, c ∈ w.toList) ∧
    (∀ w ∈ r.answers, is_spelling_bee_word w = true) := by
  obtain ⟨a, lg, hloop, hr⟩ := scrape_ok h
  obtain ⟨hval, html, hshape⟩ := scrapeLoop_accept _ _ hloop
  have hfilter : ∀ w ∈ a, is_spelling_bee_word w = true := by
    rcases hshape with h1 | h1
    · obtain ⟨l, hl, hfl⟩ := structured_parse_canon bsoup html
      intro w hw
      rw [h1, hl] at hw
      exact hfl w ((mem_canonSet l w).mp ((hs _).mem_iff.mp hw))
    · obtain ⟨l, hl, hfl⟩ := regex_parse_canon html
      intro w hw
      rw [h1, hl] at hw
      exact hfl w ((mem_canonSet l w).mp ((hs _).mem_iff.mp hw))
  subst hr
  have hmemans : ∀ w : String,
      w ∈ List.insertionSort (fun x1 x2 => strLe x1 x2 = true) a ↔ w ∈ a :=
    fun w => (List.perm_insertionSort _ _).mem_iff
  refine ⟨?_, ?_, ?_, ?_, ?_⟩
  · exact ((List.perm_insertionSort (fun x1 x2 => strLe x1 x2 = true) a).length_eq).symm
  · intro p hp
    exact (hmemans p).mpr (find_pangrams_sub p hp)
  · intro hne
    cases hfa : find_all_letters a with
    | none =>
      refine absurd ?_ hne
      show (find_all_letters a).getD "" = ""
      rw [hfa]
      rfl
    | some s =>
      exact find_all_letters_some hfa
  · intro hne
    cases hfc : find_center_letter tau a with
    | none =>
      refine absurd ?_ hne
      show ((find_center_letter tau a).map (fun c => String.mk [c])).getD "" = ""
      rw [hfc]
      rfl
    | some c =>
      refine ⟨c, rfl, ?_⟩
      intro w hw
      exact find_center_letter_mem hfc w ((hmemans w).mp hw)
  · intro w hw
    exact hfilter w ((hmemans w).mp hw)

set_option maxRecDepth 100000 in
/-- Witness for C5: the amended statement at the concrete run on `htmlB`. -/
theorem claim_C5_witness :
    recB.wordCount = recB.answers.length ∧
    (∀ p ∈ recB.pangrams, p ∈ recB.answers) ∧
    (recB.letters ≠ "" → recB.letters.toList.length = 7 ∧ recB.letters.toList.Nodup ∧
      List.Sorted (fun a b => a ≤ b) recB.letters.toList) ∧
    (recB.centerLetter ≠ "" → ∃ c, recB.centerLetter = String.mk [c] ∧
      ∀ w ∈ recB.answers, c ∈ w.toList) ∧
    (∀ w ∈ recB.answers, is_spelling_bee_word w = true) :=
  claim_C5_amended fetchB bs0 id tau0 2026 1 2 recB (fun l => List.Perm.refl l) rfl

/-- Witness for C2: the amended characterisation instantiated on `wordsT`. -/
theorem claim_C2_witness :
    ∃ s, find_all_letters wordsT = some s ∧
      s.toList.length = 7 ∧ s.toList.Nodup ∧ List.Sorted (fun a b => a ≤ b) s.toList ∧
      (∀ c ∈ s.toList, c ∈ lettersFlat wordsT) ∧
      (∀ c ∈ s.toList, ∀ d ∈ firstDedup (lettersFlat wordsT), d ∉ s.toList →
        (lettersFlat wordsT).count d < (lettersFlat wordsT).count c ∨
          ((lettersFlat wordsT).count d = (lettersFlat wordsT).count c ∧
            firstIdx (firstDedup (lettersFlat wordsT)) c <
              firstIdx (firstDedup (lettersFlat wordsT)) d)) :=
  (claim_C2_amended wordsT).2.2 (by decide) (by decide)

end Bee
